import Mathlib

/-!
Verification of the VisualRag ingestion core against its specification.

The development shallowly embeds the algorithmic parts of the repository:
the token-to-line clustering shared by the text extractor and the layout
analyzer, the region bounding-box geometry, the region-mapping heuristic of
the search path, the search route with its keyword-first/vector-fallback
policy, and the staged ingestion state machine with its queue driver.
JavaScript numbers are modelled as rationals, strings as lists of
characters, and fallible calls as values of Except.
-/

namespace VisualRag

/-! ### Tokens and line clustering (textExtractor.ts and layoutAnalyzer) -/

/-- A page token as consumed by extractTextFromPdf: text plus baseline x, y. -/
structure Token where
  text : List Char
  x : ℚ
  y : ℚ
deriving Repr, DecidableEq

/-- A page token as consumed by analyzePdfLayout: additionally width/height. -/
structure LToken where
  text : List Char
  x : ℚ
  y : ℚ
  width : ℚ
  height : ℚ
deriving Repr, DecidableEq

/-- Projection of a layout token to an extractor token (same text, x, y). -/
def toToken (t : LToken) : Token :=
  { text := t.text, x := t.x, y := t.y }

/-- The JS sort comparator of extractTextFromPdf, as a boolean total order:
a comes no later than b when b.y - a.y < 0, or the y are equal and
a.x - b.x <= 0.  JS Array.prototype.sort is stable, so a stable merge sort
with this relation models it. -/
def tokenLE (a b : Token) : Bool :=
  if a.y = b.y then decide (a.x ≤ b.x) else decide (b.y < a.y)

/-- The identical comparator used by analyzePdfLayout on its richer tokens. -/
def ltokenLE (a b : LToken) : Bool :=
  if a.y = b.y then decide (a.x ≤ b.x) else decide (b.y < a.y)

/-- One step of the clustering loop shared by both modules: cur is the
current line in reverse order, curY the running mean of its y values.
A token joins the current line when |y - runningMeanY| <= threshold and
the running mean is updated incrementally; otherwise it opens a new line. -/
def clusterAux (y : α → ℚ) (threshold : ℚ) (cur : List α) (curY : ℚ) :
    List α → List (List α)
  | [] => [cur.reverse]
  | item :: rest =>
    if |y item - curY| ≤ threshold then
      clusterAux y threshold (item :: cur)
        ((curY * cur.length + y item) / (cur.length + 1)) rest
    else
      cur.reverse :: clusterAux y threshold [item] (y item) rest

/-- Partition a (sorted) token list into lines, as the loop over items does
in both extractTextFromPdf and analyzePdfLayout. -/
def clusterLines (y : α → ℚ) (threshold : ℚ) : List α → List (List α)
  | [] => []
  | item :: rest => clusterAux y threshold [item] (y item) rest

/-- JS String.prototype.trim on a character list. -/
def jsTrim (s : List Char) : List Char :=
  ((s.dropWhile Char.isWhitespace).reverse.dropWhile Char.isWhitespace).reverse

/-- extractTextFromPdf, per page: sort tokens with the comparator, cluster
into lines with threshold pageHeight * 0.012, take each line's trimmed
concatenated text and drop empty lines.  (The source's guard for a line
with no items is subsumed: such a line has empty text.) -/
def extractLines (height : ℚ) (tokens : List Token) : List (List Char) :=
  let sorted := tokens.mergeSort tokenLE
  let lines := clusterLines Token.y (height * (12 / 1000)) sorted
  (lines.map (fun line => jsTrim (line.map Token.text).flatten)).filter
    (fun t => !t.isEmpty)

/-- The page text of extractTextFromPdf: line texts joined by newline. -/
def pageText (height : ℚ) (tokens : List Token) : List Char :=
  (extractLines height tokens).intersperse ['\n'] |>.flatten

/-- A normalized bounding box as emitted by analyzePdfLayout. -/
structure BBox where
  x0 : ℚ
  y0 : ℚ
  x1 : ℚ
  y1 : ℚ
deriving Repr, DecidableEq

/-- Fold of min over a nonempty line, seeded at the first item; this equals
the source's fold of Math.min seeded at positive infinity. -/
def lineMin (f : LToken → ℚ) : List LToken → ℚ
  | [] => 0
  | t :: ts => ts.foldl (fun m it => min m (f it)) (f t)

/-- Fold of max over a nonempty line, seeded at the first item; this equals
the source's fold of Math.max seeded at negative infinity. -/
def lineMax (f : LToken → ℚ) : List LToken → ℚ
  | [] => 0
  | t :: ts => ts.foldl (fun m it => max m (f it)) (f t)

/-- The region box of one line in analyzePdfLayout: min/max of each token's
(x, x+width, y, y+height), normalized by page width/height, padded
vertically by height * 0.004, with y clamped into [0,1].  The x
coordinates are normalized but not clamped, exactly as in the source. -/
def lineBBox (width height : ℚ) (line : List LToken) : BBox :=
  let minX := lineMin (fun t => t.x) line
  let maxX := lineMax (fun t => t.x + t.width) line
  let minY := lineMin (fun t => t.y) line
  let maxY := lineMax (fun t => t.y + t.height) line
  let paddingY := height * (4 / 1000)
  { x0 := minX / width
    y0 := max 0 ((minY - paddingY) / height)
    x1 := maxX / width
    y1 := min 1 ((maxY + paddingY) / height) }

/-- analyzePdfLayout, per page: the same sort and clustering as the text
extractor, then one region per line with non-empty trimmed text.  (With
rational coordinates the source's Number.isFinite guard never fires, and
its empty-line guard is subsumed by the empty-text check.) -/
def layoutRegions (width height : ℚ) (tokens : List LToken) : List BBox :=
  let sorted := tokens.mergeSort ltokenLE
  let lines := clusterLines LToken.y (height * (12 / 1000)) sorted
  (lines.filter (fun line => !(jsTrim (line.map LToken.text).flatten).isEmpty)).map
    (lineBBox width height)

/-! ### Region mapping (pickRegionIdsForText) -/

/-- JS String.prototype.toLowerCase, character by character. -/
def jsToLower (s : List Char) : List Char := s.map Char.toLower

/-- Helper for indexOf: first position at or after i where pat occurs. -/
def indexOfSubAux (pat : List Char) : List Char → Nat → Option Nat
  | [], i => if pat.isPrefixOf ([] : List Char) then some i else none
  | c :: rest, i =>
    if pat.isPrefixOf (c :: rest) then some i else indexOfSubAux pat rest (i + 1)

/-- JS String.prototype.indexOf restricted to the found/not-found index:
the first index at which pat occurs in text, if any. -/
def indexOfSub (text pat : List Char) : Option Nat := indexOfSubAux pat text 0

/-- The zero-based line index of a match offset: the source computes
text.slice(0, idx).split newline and subtracts one from its length, which
equals the number of newline characters before the offset. -/
def lineIndexAt (text : List Char) (idx : Nat) : Nat :=
  (text.take idx).count '\n'

/-- pickRegionIdsForText from the server module.  The result entries model
JS array elements: an out-of-range JS index access yields undefined, hence
the Option in the result type.  The source's lineIndex < 0 branch is dead
(a split never has fewer than one part) and the Nat subtraction in
startIndex mirrors its clamp of negative startIndex to 0. -/
def pickRegionIdsForText (text query : List Char) (regionIds : List String) :
    List (Option String) :=
  if regionIds.isEmpty then []
  else
    match indexOfSub (jsToLower text) (jsToLower query) with
    | none => [regionIds[regionIds.length / 2]?]
    | some idx =>
      let lineIndex := lineIndexAt text idx
      let startIndex := lineIndex - 1
      let endIndex0 := lineIndex + 1
      let endIndex1 :=
        if regionIds.length ≤ endIndex0 then regionIds.length - 1 else endIndex0
      let endIndex := if endIndex1 < startIndex then startIndex else endIndex1
      let selected := (regionIds.drop startIndex).take (endIndex + 1 - startIndex)
      if selected.isEmpty then [regionIds[startIndex]?] else selected.map some

/-- The inclusive index window the claim specifies for a match at line
index L over N regions: from max(0, L-1) to min(N-1, L+1).  Nat
subtraction realizes the lower clamp. -/
def claimWindow (L N : Nat) : List Nat :=
  List.range' (L - 1) (min (N - 1) (L + 1) + 1 - (L - 1))

/-! ### Semantic search (semanticSearch and its HTTP route) -/

/-- A persisted text page row (TextPage table). -/
structure TextPageRow where
  pageNumber : Nat
  text : List Char
deriving Repr, DecidableEq

/-- A persisted visual region row, with the fields the search path reads. -/
structure RegionRow where
  id : String
  pageNumber : Nat
  y0 : ℚ
deriving Repr, DecidableEq

/-- The persisted state the search path queries. -/
structure SearchDB where
  textPages : List TextPageRow
  regions : List RegionRow
deriving Repr, DecidableEq

/-- The external collaborators of semanticSearch: whether an API key is
configured, the outcome of the query-embedding request (an exception or
the possibly empty vector data of the response), and the rows produced by
the vector similarity ranking of the persistence collaborator. -/
structure SearchEnv where
  hasApiKey : Bool
  embedResult : Except String (List ℚ)
  rankedRows : List TextPageRow
deriving Repr

/-- Prisma text contains filter: literal, case-sensitive substring test. -/
def containsSub (text pat : List Char) : Bool := (indexOfSub text pat).isSome

/-- Ordering of text pages by ascending page number. -/
def pageAscLE (a b : TextPageRow) : Bool := decide (a.pageNumber ≤ b.pageNumber)

/-- Ordering of regions by ascending top edge. -/
def regionY0LE (a b : RegionRow) : Bool := decide (a.y0 ≤ b.y0)

/-- The keyword query of semanticSearch: pages of the document whose text
contains the query literally, ordered by page number, first limit rows. -/
def keywordMatches (db : SearchDB) (query : List Char) (limit : Nat) :
    List TextPageRow :=
  (((db.textPages.filter (fun p => containsSub p.text query)).mergeSort
    pageAscLE).take limit)

/-- The per-page region identity list used by both result builders: that
page's regions ordered by ascending y0 (reading order). -/
def regionIdsForPage (db : SearchDB) (p : Nat) : List String :=
  ((db.regions.filter (fun r => decide (r.pageNumber = p))).mergeSort
    regionY0LE).map (fun r => r.id)

/-- Snippet construction: a 60-character window around the first
case-insensitive occurrence with ellipsis markers, or the first 120
characters when the query does not occur. -/
def buildSnippet (text query : List Char) : List Char :=
  match indexOfSub (jsToLower text) (jsToLower query) with
  | none => text.take 120
  | some idx =>
    let start := idx - 60
    let stop := min text.length (idx + query.length + 60)
    (if 0 < start then ['…'] else []) ++ ((text.take stop).drop start) ++
      (if stop < text.length then ['…'] else [])

/-- One search result as returned to the route. -/
structure SemanticSearchResultItem where
  pageNumber : Nat
  snippet : List Char
  regionIds : List (Option String)
deriving Repr, DecidableEq

/-- buildResultsFromTextPages: map each matched page to its snippet and
mapped region identities. -/
def buildResultsFromTextPages (db : SearchDB) (query : List Char)
    (ms : List TextPageRow) : List SemanticSearchResultItem :=
  ms.map (fun m =>
    { pageNumber := m.pageNumber
      snippet := buildSnippet m.text query
      regionIds := pickRegionIdsForText m.text query
        (regionIdsForPage db m.pageNumber) })

/-- semanticSearch: keyword matches first; only when none exist, request a
query embedding (throwing when no API key is configured, and propagating a
failed request), fall back to the keyword results when the response has no
vector or the ranking returns no rows, and otherwise build results from
the vector-ranked rows. -/
def semanticSearch (db : SearchDB) (env : SearchEnv) (query : List Char)
    (limit : Option Nat) : Except String (List SemanticSearchResultItem) :=
  let effectiveLimit := limit.getD 10
  let km := keywordMatches db query effectiveLimit
  if !km.isEmpty then .ok (buildResultsFromTextPages db query km)
  else if !env.hasApiKey then .error "embedding_model_not_configured"
  else
    match env.embedResult with
    | .error m => .error m
    | .ok v =>
      if v.isEmpty then
        .ok (buildResultsFromTextPages db query
          (keywordMatches db query effectiveLimit))
      else
        let rows := env.rankedRows.take effectiveLimit
        if rows.isEmpty then
          .ok (buildResultsFromTextPages db query
            (keywordMatches db query effectiveLimit))
        else .ok (buildResultsFromTextPages db query rows)

/-- The GET documents/:id/search/semantic handler around semanticSearch:
any raised error is caught and replaced by an empty result list. -/
def searchSemanticRoute (db : SearchDB) (env : SearchEnv) (query : List Char)
    (limit : Option Nat) : List SemanticSearchResultItem :=
  match semanticSearch db env query limit with
  | .ok r => r
  | .error _ => []

/-! ### Ingestion pipeline state machine (ingestionPipeline module) -/

/-- The stage enumeration of the pipeline types. -/
inductive Stage where
  | queued
  | extracting_text
  | layout_analysis
  | generating_text_embeddings
  | generating_image_embeddings
  | writing_database
  | completed
  | failed
deriving Repr, DecidableEq

/-- A text page as stored in task metadata by the extraction stage. -/
structure TextPage where
  pageNumber : Nat
  width : ℚ
  height : ℚ
  text : List Char
deriving Repr, DecidableEq

/-- A layout page as stored in task metadata by the layout stage. -/
structure LayoutPage where
  pageNumber : Nat
  width : ℚ
  height : ℚ
  regions : List BBox
deriving Repr, DecidableEq

/-- A per-page text embedding entry as stored by the embedding stage. -/
structure PageEmbedding where
  pageNumber : Nat
  text : List Char
  embedding : List ℚ
deriving Repr, DecidableEq

/-- The per-task metadata bag, with one field per stage output. -/
structure Meta where
  textPages : Option (List TextPage) := none
  layoutPages : Option (List LayoutPage) := none
  textEmbeddings : Option (List PageEmbedding) := none
deriving Repr, DecidableEq

/-- An ingestion task.  Dates are modelled by a monotone tick counter. -/
structure Task where
  id : String
  userId : String
  fileName : String
  fileType : String
  sourcePath : String
  createdAt : Nat
  updatedAt : Nat
  stage : Stage
  progress : ℚ
  error : Option String := none
  meta : Meta := {}
deriving Repr, DecidableEq

/-- A progress event as published by the progress emitter. -/
structure Event where
  stage : Stage
  progress : ℚ
deriving Repr, DecidableEq

/-- The external collaborators one task run interacts with: the outcome of
extractTextFromPdf, of analyzePdfLayout, whether OPENAI_API_KEY is set,
the index of the first embedding request that throws (if any), the vector
data each successful embedding response carries, the outcome of the
database writes, and whether IMAGE_EMBEDDING_ENDPOINT is configured (the
run loop never reads it; only the uninvoked image-embedding handler
would). -/
structure StageEnv where
  extractResult : Except String (List TextPage)
  layoutResult : Except String (List LayoutPage)
  hasApiKey : Bool
  embedFailAt : Option Nat
  embedVector : List Char → List ℚ
  writeResult : Except String Unit
  imageEndpoint : Option String

/-- updateTaskStage: overwrite stage and progress, refresh updatedAt; the
paired progress event is accounted for at each call site. -/
def updateTaskStage (t : Task) (s : Stage) (p : ℚ) : Task :=
  { t with stage := s, progress := p, updatedAt := t.updatedAt + 1 }

/-- The failure transition of runTask's catch block: record the error
message, then updateTaskStage to failed keeping the current progress. -/
def failTransition (t : Task) (m : String) : Task :=
  updateTaskStage { t with error := some m } .failed t.progress

/-- stageBaseProgress from the pipeline class. -/
def stageBaseProgress : Stage → ℚ
  | .extracting_text => 5
  | .layout_analysis => 25
  | .generating_text_embeddings => 45
  | .generating_image_embeddings => 65
  | .writing_database => 85
  | .completed => 100
  | _ => 0

/-- The incremental progress events of the text-embedding loop: after each
of the first done pages (out of total), baseline + (index+1)/total * 15. -/
def embedEvents (total done : Nat) : List Event :=
  (List.range done).map (fun index =>
    { stage := .generating_text_embeddings
      progress := stageBaseProgress .generating_text_embeddings +
        (((index : ℚ) + 1) / (total : ℚ)) * 15 })

/-- The extractText handler: store the extracted pages in metadata, or let
the extraction exception propagate. -/
def extractText (env : StageEnv) (t : Task) : Except String (Task × List Event) :=
  match env.extractResult with
  | .error m => .error m
  | .ok pages =>
    .ok ({ t with meta := { t.meta with textPages := some pages } }, [])

/-- The layoutAnalysis handler: no-op without text pages, otherwise store
the layout pages or let the analyzer exception propagate. -/
def layoutAnalysis (env : StageEnv) (t : Task) : Except String (Task × List Event) :=
  match t.meta.textPages with
  | none => .ok (t, [])
  | some pages =>
    if pages.isEmpty then .ok (t, [])
    else
      match env.layoutResult with
      | .error m => .error m
      | .ok lp =>
        .ok ({ t with meta := { t.meta with layoutPages := some lp } }, [])

/-- The embedding request input: the page text truncated to 8000 chars. -/
def embedInput (p : TextPage) : List Char :=
  if 8000 < p.text.length then p.text.take 8000 else p.text

/-- The generateTextEmbeddings handler: no-op without text pages or API
key; otherwise request one vector per page sequentially, emitting a
progress event after each page, and store the collected entries.  Its own
try/catch swallows an embedding exception: the pages before the failing
request have emitted their events, metadata is left unchanged, and the
stage never fails the task. -/
def generateTextEmbeddings (env : StageEnv) (t : Task) : Task × List Event :=
  match t.meta.textPages with
  | none => (t, [])
  | some pages =>
    if pages.isEmpty then (t, [])
    else if !env.hasApiKey then (t, [])
    else
      let total := pages.length
      let entries := pages.map (fun p =>
        { pageNumber := p.pageNumber
          text := p.text
          embedding := env.embedVector (embedInput p) : PageEmbedding })
      let finished :=
        ({ t with meta := { t.meta with textEmbeddings := some entries } },
          embedEvents total total)
      match env.embedFailAt with
      | some k => if k < total then (t, embedEvents total k) else finished
      | none => finished

/-- The writeDatabase handler: no-op without text pages, otherwise the
persistence writes either succeed or their exception propagates. -/
def writeDatabase (env : StageEnv) (t : Task) : Except String (Task × List Event) :=
  match t.meta.textPages with
  | none => .ok (t, [])
  | some pages =>
    if pages.isEmpty then .ok (t, [])
    else
      match env.writeResult with
      | .error m => .error m
      | .ok _ => .ok (t, [])

/-- The fixed stage/handler list of runTask.  Note that it does not contain
generating_image_embeddings: the pipeline's image-embedding handler is
never registered here. -/
def stagesList : List Stage :=
  [.extracting_text, .layout_analysis, .generating_text_embeddings,
    .writing_database]

/-- Dispatch of runTask's loop body to the handler of a stage. -/
def runStageHandler (env : StageEnv) :
    Stage → Task → Except String (Task × List Event)
  | .extracting_text, t => extractText env t
  | .layout_analysis, t => layoutAnalysis env t
  | .generating_text_embeddings, t => .ok (generateTextEmbeddings env t)
  | .writing_database, t => writeDatabase env t
  | _, t => .ok (t, [])

/-- The loop of runTask over the remaining (index, stage) pairs: enter the
stage with progress (i / stages.length) * 100, run the handler, and on an
exception apply the failure transition and stop; after the last stage mark
the task completed at 100.  The event list collects every emitted progress
event in order. -/
def runStagesList (env : StageEnv) (t : Task) :
    List (Nat × Stage) → Task × List Event
  | [] =>
    (updateTaskStage t .completed 100, [{ stage := .completed, progress := 100 }])
  | (i, s) :: rest =>
    let p := ((i : ℚ) / (stagesList.length : ℚ)) * 100
    let t1 := updateTaskStage t s p
    match runStageHandler env s t1 with
    | .ok (t2, evs) =>
      let r := runStagesList env t2 rest
      (r.1, { stage := s, progress := p } :: evs ++ r.2)
    | .error m =>
      (failTransition t1 m,
        [{ stage := s, progress := p }, { stage := .failed, progress := t1.progress }])

/-- runTask: drive a task through the enumerated stage list. -/
def runTask (env : StageEnv) (t : Task) : Task × List Event :=
  runStagesList env t stagesList.enum

/-- The full event trace of one submitted task: the queued event emitted by
createTask followed by the events of its run. -/
def taskTrace (env : StageEnv) (t : Task) : List Event :=
  { stage := .queued, progress := 0 } :: (runTask env t).2

/-- A freshly created task as built by createTask. -/
def createTask (id userId fileName fileType sourcePath : String) : Task :=
  { id := id, userId := userId, fileName := fileName, fileType := fileType
    sourcePath := sourcePath, createdAt := 0, updatedAt := 0
    stage := .queued, progress := 0 }

/-- The queue driver: runNext drains the FIFO queue one task at a time,
re-arming itself in a finally block, so the submitted jobs are processed
sequentially in submission order and a task's failure never stops the
drain.  The driver is therefore a total map of runTask over the queue. -/
def runQueue (jobs : List (Task × StageEnv)) : List (Task × List Event) :=
  jobs.map (fun j => runTask j.2 j.1)

/-! ### Fixtures shared by the concrete evaluations -/

/-- Shared fixture: a one-page extraction result. -/
def pageA : TextPage := { pageNumber := 1, width := 100, height := 100, text := ['h','i'] }

/-- Shared fixture: a layout page with one region. -/
def lpage1 : LayoutPage :=
  { pageNumber := 1, width := 100, height := 100
    regions := [{ x0 := 0, y0 := 0, x1 := 1, y1 := 1 }] }

/-- Shared fixture: an environment in which every stage succeeds. -/
def envOk : StageEnv :=
  { extractResult := .ok [pageA]
    layoutResult := .ok [lpage1]
    hasApiKey := false
    embedFailAt := none
    embedVector := fun _ => []
    writeResult := .ok ()
    imageEndpoint := none }

/-- Shared fixture: four pages with embeddings enabled. -/
def env4 : StageEnv :=
  { envOk with
    extractResult := .ok [pageA, { pageA with pageNumber := 2 },
      { pageA with pageNumber := 3 }, { pageA with pageNumber := 4 }]
    hasApiKey := true }

/-- Shared fixture: successful run with layout data and image backend set. -/
def envImg : StageEnv := { envOk with imageEndpoint := some "http://image-embedder" }

/-- Shared fixture: an environment whose extraction stage throws. -/
def envBad : StageEnv := { envOk with extractResult := .error "boom" }

/-- Shared fixture: a freshly submitted task. -/
def t0 : Task := createTask "t" "u" "f.pdf" "pdf" "/tmp/f.pdf"

/-- An environment whose extraction, layout and write collaborators all succeed. -/
def EnvSucceeds (env : StageEnv) : Prop :=
  (∃ a, env.extractResult = Except.ok a) ∧ (∃ a, env.layoutResult = Except.ok a) ∧
    env.writeResult = Except.ok ()

/-- Shared fixture: one page containing the letters f, o, o. -/
def db1 : SearchDB :=
  { textPages := [{ pageNumber := 3, text := ['f','o','o'] }]
    regions := [{ id := "r1", pageNumber := 3, y0 := 0 }] }

/-- Shared fixture: an embedding collaborator whose request throws. -/
def envE : SearchEnv :=
  { hasApiKey := true, embedResult := .error "rate_limited", rankedRows := [] }

/-- A token text that is nonempty and has no leading or trailing
whitespace: under this condition a line's trim is the identity. -/
def goodText (s : List Char) : Prop :=
  s ≠ [] ∧ s.head?.all (fun c => !c.isWhitespace) = true ∧
    s.getLast?.all (fun c => !c.isWhitespace) = true

instance (s : List Char) : Decidable (goodText s) := by
  unfold goodText
  exact inferInstance

/-- Shared fixture: the single token whose text carries a trailing space. -/
def tokTrail : Token := { text := ['a', ' '], x := 0, y := 0 }

/-- A token that lies inside the page: non-negative origin and extent, and
its far corner within the page width/height. -/
def tokenInPage (w h : ℚ) (t : LToken) : Prop :=
  0 ≤ t.x ∧ t.x + t.width ≤ w ∧ 0 ≤ t.y ∧ t.y + t.height ≤ h ∧
    0 ≤ t.width ∧ 0 ≤ t.height

/-- Shared fixture: a token extending left of the page edge. -/
def tokOut : LToken := { text := ['a'], x := -10, y := 50, width := 5, height := 5 }

/-- Shared fixture: a token inside the page. -/
def tokIn : LToken := { text := ['a'], x := 1, y := 1, width := 2, height := 2 }

/-! ### Theorems -/

theorem runStageHandler_ok_of_succeeds (env : StageEnv) (h : EnvSucceeds env)
    (s : Stage) (t1 : Task) : ∃ r, runStageHandler env s t1 = Except.ok r := by
  obtain ⟨⟨pages, hE⟩, ⟨lp, hL⟩, hW⟩ := h
  cases s <;>
    simp [runStageHandler, extractText, layoutAnalysis, writeDatabase, hE, hL, hW] <;>
    rcases t1.meta.textPages with _ | tp <;> simp <;> split <;> simp [hL, hW]

theorem runStagesList_completed_of_ok (env : StageEnv) (l : List (Nat × Stage))
    (h : ∀ s t1, ∃ r, runStageHandler env s t1 = Except.ok r) (t : Task) :
    (runStagesList env t l).1.stage = Stage.completed := by
  induction l generalizing t with
  | nil => simp [runStagesList, updateTaskStage]
  | cons p rest ih =>
    obtain ⟨r, hr⟩ := h p.2 (updateTaskStage t p.2 (((p.1 : ℚ) / (stagesList.length : ℚ)) * 100))
    simp only [runStagesList, hr]
    exact ih r.1

theorem runTask_completed (env : StageEnv) (t : Task) (h : EnvSucceeds env) :
    (runTask env t).1.stage = Stage.completed :=
  runStagesList_completed_of_ok env _ (runStageHandler_ok_of_succeeds env h) t

theorem runStageHandler_error_source (env : StageEnv) (s : Stage) (t1 : Task)
    (m : String) (h : runStageHandler env s t1 = Except.error m) :
    env.extractResult = Except.error m ∨ env.layoutResult = Except.error m ∨
      env.writeResult = Except.error m := by
  cases s <;> simp only [runStageHandler] at h
  case extracting_text =>
    unfold extractText at h
    cases hE : env.extractResult <;> simp [hE] at h
    subst h; exact Or.inl rfl
  case layout_analysis =>
    unfold layoutAnalysis at h
    rcases htp : t1.meta.textPages with _ | tp <;> rw [htp] at h <;> simp at h
    by_cases hp : tp = [] <;> simp [hp] at h
    cases hL : env.layoutResult <;> rw [hL] at h <;> simp at h
    subst h; exact Or.inr (Or.inl rfl)
  case writing_database =>
    unfold writeDatabase at h
    rcases htp : t1.meta.textPages with _ | tp <;> rw [htp] at h <;> simp at h
    by_cases hp : tp = [] <;> simp [hp] at h
    cases hW : env.writeResult <;> rw [hW] at h <;> simp at h
    subst h; exact Or.inr (Or.inr rfl)
  all_goals cases h

theorem runStagesList_terminal (env : StageEnv) (l : List (Nat × Stage)) (t : Task) :
    (runStagesList env t l).1.stage = Stage.completed ∨
      ((runStagesList env t l).1.stage = Stage.failed ∧
        ∃ msg, (runStagesList env t l).1.error = some msg ∧
          (env.extractResult = Except.error msg ∨ env.layoutResult = Except.error msg ∨
            env.writeResult = Except.error msg)) := by
  induction l generalizing t with
  | nil => exact Or.inl (by simp [runStagesList, updateTaskStage])
  | cons p rest ih =>
    simp only [runStagesList]
    cases hr : runStageHandler env p.2
      (updateTaskStage t p.2 (((p.1 : ℚ) / (stagesList.length : ℚ)) * 100)) with
    | ok r => simpa using ih r.1
    | error msg =>
      refine Or.inr ⟨by simp [failTransition, updateTaskStage], msg,
        by simp [failTransition, updateTaskStage], ?_⟩
      exact runStageHandler_error_source env p.2 _ msg hr

theorem runTask_terminal (env : StageEnv) (t : Task) :
    (runTask env t).1.stage = Stage.completed ∨
      ((runTask env t).1.stage = Stage.failed ∧
        ∃ msg, (runTask env t).1.error = some msg ∧
          (env.extractResult = Except.error msg ∨ env.layoutResult = Except.error msg ∨
            env.writeResult = Except.error msg)) :=
  runStagesList_terminal env _ t

theorem runTask_extract_fail (env : StageEnv) (t : Task) (m : String)
    (h : env.extractResult = Except.error m) :
    (runTask env t).1.stage = Stage.failed ∧ (runTask env t).1.error = some m := by
  simp [runTask, runStagesList, stagesList, List.enum, List.enumFrom, runStageHandler,
    extractText, h, failTransition, updateTaskStage]


/-- C1: on any stage exception the task is marked failed with the raised
error recorded; the queue driver never raises and runs every queued task to
a verdict; in the A, B, C scenario with only B's extraction failing, A and
C reach completed while B reaches failed with the non-empty error. -/
theorem c1_queue_failure_isolation (envA envB envC : StageEnv)
    (tA tB tC : Task) (m : String)
    (hA : EnvSucceeds envA) (hC : EnvSucceeds envC)
    (hB : envB.extractResult = Except.error m) (hm : m ≠ "") :
    (∀ jobs, (runQueue jobs).length = jobs.length) ∧
    (∀ env t, (runTask env t).1.stage = Stage.completed ∨
      ((runTask env t).1.stage = Stage.failed ∧
        ∃ msg, (runTask env t).1.error = some msg ∧
          (env.extractResult = Except.error msg ∨
            env.layoutResult = Except.error msg ∨
            env.writeResult = Except.error msg))) ∧
    runQueue [(tA, envA), (tB, envB), (tC, envC)] =
      [runTask envA tA, runTask envB tB, runTask envC tC] ∧
    (runTask envA tA).1.stage = Stage.completed ∧
    (runTask envC tC).1.stage = Stage.completed ∧
    (runTask envB tB).1.stage = Stage.failed ∧
    (runTask envB tB).1.error = some m ∧ m ≠ "" := by
  refine ⟨fun jobs => by simp [runQueue], fun env t => runTask_terminal env t,
    by simp [runQueue], runTask_completed envA tA hA, runTask_completed envC tC hC,
    (runTask_extract_fail envB tB m hB).1, (runTask_extract_fail envB tB m hB).2, hm⟩

/-- Witness for C1 at a concrete three-task queue. -/
theorem c1_queue_failure_isolation_witness :
    (∀ jobs, (runQueue jobs).length = jobs.length) ∧
    (∀ env t, (runTask env t).1.stage = Stage.completed ∨
      ((runTask env t).1.stage = Stage.failed ∧
        ∃ msg, (runTask env t).1.error = some msg ∧
          (env.extractResult = Except.error msg ∨
            env.layoutResult = Except.error msg ∨
            env.writeResult = Except.error msg))) ∧
    runQueue [(t0, envOk), (t0, envBad), (t0, envOk)] =
      [runTask envOk t0, runTask envBad t0, runTask envOk t0] ∧
    (runTask envOk t0).1.stage = Stage.completed ∧
    (runTask envOk t0).1.stage = Stage.completed ∧
    (runTask envBad t0).1.stage = Stage.failed ∧
    (runTask envBad t0).1.error = some "boom" ∧ "boom" ≠ "" :=
  c1_queue_failure_isolation envOk envBad envOk t0 t0 t0 "boom"
    ⟨⟨[pageA], rfl⟩, ⟨[lpage1], rfl⟩, rfl⟩
    ⟨⟨[pageA], rfl⟩, ⟨[lpage1], rfl⟩, rfl⟩
    rfl (by decide)

/-- C2: on a four-page task with embeddings enabled, the emitted progress
event sequence is not monotonically non-decreasing: the entry event of the
text-embedding stage reports 50 and the first per-page event 195/4. -/
theorem c2_progress_events_not_monotone :
    (taskTrace env4 t0).map Event.progress =
      [0, 0, 25, 50, 195/4, 105/2, 225/4, 60, 75, 100] ∧
    ¬ List.Pairwise (fun a b => a ≤ b) ((taskTrace env4 t0).map Event.progress) := by
  constructor
  · norm_num [taskTrace, runTask, runStagesList, stagesList, List.enum, List.enumFrom,
      runStageHandler, extractText, layoutAnalysis, generateTextEmbeddings, writeDatabase,
      updateTaskStage, failTransition, embedEvents, stageBaseProgress, env4, envOk, t0,
      createTask, pageA, lpage1, List.range, List.range.loop, embedInput]
  · norm_num [taskTrace, runTask, runStagesList, stagesList, List.enum, List.enumFrom,
      runStageHandler, extractText, layoutAnalysis, generateTextEmbeddings, writeDatabase,
      updateTaskStage, failTransition, embedEvents, stageBaseProgress, env4, envOk, t0,
      createTask, pageA, lpage1, List.range, List.range.loop, embedInput, List.pairwise_cons]

/-- C3: a fully successful run that has layout data and a configured
image-embedding backend still never enters generating_image_embeddings:
the stage is absent from the trace because runTask's stage list omits it. -/
theorem c3_image_embedding_stage_never_entered :
    (taskTrace envImg t0).map Event.stage =
      [Stage.queued, Stage.extracting_text, Stage.layout_analysis,
        Stage.generating_text_embeddings, Stage.writing_database, Stage.completed] ∧
    Stage.generating_image_embeddings ∉ (taskTrace envImg t0).map Event.stage ∧
    envImg.imageEndpoint = some "http://image-embedder" ∧
    (runTask envImg t0).1.meta.layoutPages = some [lpage1] ∧
    lpage1.regions ≠ [] ∧
    Stage.generating_image_embeddings ∉ stagesList := by
  refine ⟨?_, ?_, rfl, ?_, by simp [lpage1], by decide⟩ <;>
    norm_num [taskTrace, runTask, runStagesList, stagesList, List.enum, List.enumFrom,
      runStageHandler, extractText, layoutAnalysis, generateTextEmbeddings, writeDatabase,
      updateTaskStage, failTransition, embedEvents, stageBaseProgress, envImg, envOk, t0,
      createTask, pageA, lpage1, List.range, List.range.loop, embedInput] <;> decide

/-- C4: the progress stored and emitted on entry to each stage is
(stageIndex / 4) * 100 — 0, 25, 50, 75, then 100 on completion — and not
the 5/25/45/65/85 baselines of stageBaseProgress; only the per-sub-item
events use baseline + (completed/total) * 15. -/
theorem c4_entry_progress_is_not_stage_baseline :
    taskTrace envOk t0 =
      [{ stage := Stage.queued, progress := 0 },
        { stage := Stage.extracting_text, progress := 0 },
        { stage := Stage.layout_analysis, progress := 25 },
        { stage := Stage.generating_text_embeddings, progress := 50 },
        { stage := Stage.writing_database, progress := 75 },
        { stage := Stage.completed, progress := 100 }] ∧
    (0 : ℚ) ≠ stageBaseProgress Stage.extracting_text ∧
    (50 : ℚ) ≠ stageBaseProgress Stage.generating_text_embeddings ∧
    (75 : ℚ) ≠ stageBaseProgress Stage.writing_database ∧
    (embedEvents 4 4).map Event.progress =
      [stageBaseProgress Stage.generating_text_embeddings + (1/4) * 15,
        stageBaseProgress Stage.generating_text_embeddings + (2/4) * 15,
        stageBaseProgress Stage.generating_text_embeddings + (3/4) * 15,
        stageBaseProgress Stage.generating_text_embeddings + (4/4) * 15] := by
  refine ⟨?_, ?_, ?_, ?_, ?_⟩ <;>
    norm_num [taskTrace, runTask, runStagesList, stagesList, List.enum, List.enumFrom,
      runStageHandler, extractText, layoutAnalysis, generateTextEmbeddings, writeDatabase,
      updateTaskStage, failTransition, embedEvents, stageBaseProgress, envOk, t0,
      createTask, pageA, lpage1, List.range, List.range.loop, embedInput]

/-- C10: the failure transition keeps the progress the task had at the
moment of the exception and changes only the stage, error and updatedAt
fields. -/
theorem c10_fail_transition_frame (t : Task) (m : String) :
    (failTransition t m).progress = t.progress ∧
    (failTransition t m).stage = Stage.failed ∧
    (failTransition t m).error = some m ∧
    (failTransition t m).id = t.id ∧
    (failTransition t m).userId = t.userId ∧
    (failTransition t m).fileName = t.fileName ∧
    (failTransition t m).fileType = t.fileType ∧
    (failTransition t m).sourcePath = t.sourcePath ∧
    (failTransition t m).createdAt = t.createdAt ∧
    (failTransition t m).meta = t.meta ∧
    (failTransition t m).updatedAt = t.updatedAt + 1 := by
  simp [failTransition, updateTaskStage]

/-- A contiguous slice of a list, viewed through getElem?, is the window of
its indices. -/
theorem take_drop_map_some (l : List α) (a k : Nat) (h : a + k ≤ l.length) :
    ((l.drop a).take k).map some = (List.range' a k).map (fun i => l[i]?) := by
  induction k generalizing a with
  | zero => simp
  | succ k ih =>
    have ha : a < l.length := by omega
    rw [List.drop_eq_getElem_cons ha, List.range'_succ]
    simp only [List.take_succ_cons, List.map_cons, List.getElem?_eq_getElem ha]
    rw [ih (a + 1) (by omega)]

/-- C6 (amended): on a page with at least one region, an absent query maps
to the single region at index floor(N/2); a query first occurring at line
index L with L <= N maps to exactly the region identities at indices
max(0, L-1) through min(N-1, L+1) inclusive, in order. -/
theorem c6_region_window (text query : List Char) (regionIds : List String)
    (hN : regionIds ≠ []) :
    (indexOfSub (jsToLower text) (jsToLower query) = none →
      pickRegionIdsForText text query regionIds =
        [regionIds[regionIds.length / 2]?] ∧
      (regionIds[regionIds.length / 2]?).isSome = true) ∧
    (∀ idx, indexOfSub (jsToLower text) (jsToLower query) = some idx →
      lineIndexAt text idx ≤ regionIds.length →
      pickRegionIdsForText text query regionIds =
        (claimWindow (lineIndexAt text idx) regionIds.length).map
          (fun i => regionIds[i]?)) := by
  have hNe : regionIds.isEmpty = false := by simpa using hN
  have hNlen : 0 < regionIds.length := List.length_pos.mpr hN
  constructor
  · intro hnone
    refine ⟨by simp [pickRegionIdsForText, hNe, hnone], ?_⟩
    rw [List.getElem?_eq_getElem (Nat.div_lt_self hNlen (by omega))]
    rfl
  · intro idx hsome hL
    set L := lineIndexAt text idx with hLdef
    set N := regionIds.length with hNdef
    simp only [pickRegionIdsForText, hNe, Bool.false_eq_true, if_false, hsome]
    have hend1 : (if N ≤ L + 1 then N - 1 else L + 1) = min (N - 1) (L + 1) := by
      split <;> omega
    rw [hend1]
    have hnolt : ¬ (min (N - 1) (L + 1) < L - 1) := by omega
    rw [if_neg hnolt]
    have hsel : ((regionIds.drop (L - 1)).take
        (min (N - 1) (L + 1) + 1 - (L - 1))).isEmpty = false := by
      simp only [List.isEmpty_eq_false, Ne, List.take_eq_nil_iff, List.drop_eq_nil_iff,
        ← hNdef]
      push_neg
      constructor <;> omega
    simp only [hsel, Bool.false_eq_true, if_false]
    rw [claimWindow, ← take_drop_map_some regionIds (L - 1)
      (min (N - 1) (L + 1) + 1 - (L - 1)) (by omega)]

/-- C6 counterexample: with one region and a match on line index 2, the
function returns a single undefined entry (an out-of-range JS index
access), while the claimed window [max(0,1), min(0,3)] is empty. -/
theorem c6_region_window_counterexample :
    pickRegionIdsForText ['a','\n','b','\n','c'] ['c'] ["r"] = [none] ∧
    (claimWindow (lineIndexAt ['a','\n','b','\n','c'] 4) 1).map
      (fun i => (["r"] : List String)[i]?) = ([] : List (Option String)) ∧
    indexOfSub (jsToLower ['a','\n','b','\n','c']) (jsToLower ['c']) = some 4 ∧
    lineIndexAt ['a','\n','b','\n','c'] 4 = 2 ∧
    pickRegionIdsForText ['a','\n','b','\n','c'] ['c'] ["r"] ≠
      (claimWindow (lineIndexAt ['a','\n','b','\n','c'] 4) 1).map
        (fun i => (["r"] : List String)[i]?) := by
  refine ⟨by decide, ?_, by decide, by decide, ?_⟩ <;> decide

/-- Witness for C6 at a three-region page with the match on line 1. -/
theorem c6_region_window_witness :
    pickRegionIdsForText ['x','\n','y'] ['y'] ["r","s","t"] =
      (claimWindow (lineIndexAt ['x','\n','y'] 2) 3).map
        (fun i => (["r","s","t"] : List String)[i]?) ∧
    pickRegionIdsForText ['x','\n','y'] ['y'] ["r","s","t"] =
      [some "r", some "s", some "t"] := by
  have h := (c6_region_window ['x','\n','y'] ['y'] ["r","s","t"] (by decide)).2
    2 (by decide) (by decide)
  exact ⟨h, by decide⟩

/-- C7: when a literal keyword match exists it is used directly (the result
is independent of the embedding collaborator); when the embedding path is
unavailable — no API key, a failed request, or an empty vector — the route
degrades to the literal-match results; and any error raised inside
semanticSearch is caught by the route and turned into an empty list. -/
theorem c7_search_never_surfaces_errors (db : SearchDB) (env : SearchEnv)
    (query : List Char) (limit : Option Nat) :
    (keywordMatches db query (limit.getD 10) ≠ [] →
      semanticSearch db env query limit =
        Except.ok (buildResultsFromTextPages db query
          (keywordMatches db query (limit.getD 10))) ∧
      (∀ env2, semanticSearch db env query limit = semanticSearch db env2 query limit)) ∧
    ((env.hasApiKey = false ∨ (∃ m, env.embedResult = Except.error m) ∨
        env.embedResult = Except.ok []) →
      searchSemanticRoute db env query limit =
        buildResultsFromTextPages db query (keywordMatches db query (limit.getD 10))) ∧
    (∀ e, semanticSearch db env query limit = Except.error e →
      searchSemanticRoute db env query limit = []) := by
  refine ⟨?_, ?_, ?_⟩
  · intro hk
    have hk2 : (keywordMatches db query (limit.getD 10)).isEmpty = false := by
      simpa using hk
    constructor
    · simp [semanticSearch, hk2]
    · intro env2
      simp [semanticSearch, hk2]
  · intro hdeg
    by_cases hk : keywordMatches db query (limit.getD 10) = []
    · have hk2 : (keywordMatches db query (limit.getD 10)).isEmpty = true := by
        simpa using hk
      have hempty : buildResultsFromTextPages db query
          (keywordMatches db query (limit.getD 10)) = [] := by
        rw [hk]; rfl
      rcases hdeg with hkey | ⟨m, hm⟩ | hv
      · simp [searchSemanticRoute, semanticSearch, hk2, hkey, hempty]
      · cases hkey : env.hasApiKey
        · simp [searchSemanticRoute, semanticSearch, hk2, hkey, hempty]
        · simp [searchSemanticRoute, semanticSearch, hk2, hkey, hm, hempty]
      · cases hkey : env.hasApiKey
        · simp [searchSemanticRoute, semanticSearch, hk2, hkey, hempty]
        · simp [searchSemanticRoute, semanticSearch, hk2, hkey, hv, hempty]
    · have hk2 : (keywordMatches db query (limit.getD 10)).isEmpty = false := by
        simpa using hk
      simp [searchSemanticRoute, semanticSearch, hk2]
  · intro e he
    simp [searchSemanticRoute, he]

/-- Witness for C7: a literal hit is returned directly even though the
embedding collaborator throws, and without a hit the throwing collaborator
degrades the route to the (empty) literal results. -/
theorem c7_search_never_surfaces_errors_witness :
    (semanticSearch db1 envE ['o'] none =
      Except.ok (buildResultsFromTextPages db1 ['o'] (keywordMatches db1 ['o'] 10))) ∧
    (searchSemanticRoute db1 envE ['z'] none =
      buildResultsFromTextPages db1 ['z'] (keywordMatches db1 ['z'] 10)) := by
  constructor
  · refine ((c7_search_never_surfaces_errors db1 envE ['o'] none).1 ?_).1
    rw [show keywordMatches db1 ['o'] (Option.getD none 10) =
        [{ pageNumber := 3, text := ['f','o','o'] }] from ?_]
    · simp
    · simp [keywordMatches, db1, containsSub, indexOfSub, indexOfSubAux,
        List.mergeSort_singleton]
  · refine (c7_search_never_surfaces_errors db1 envE ['z'] none).2.1 ?_
    exact Or.inr (Or.inl ⟨"rate_limited", rfl⟩)

theorem clusterAux_flatten (y : α → ℚ) (θ : ℚ) (l : List α) :
    ∀ cur curY, (clusterAux y θ cur curY l).flatten = cur.reverse ++ l := by
  induction l with
  | nil => intro cur curY; simp [clusterAux]
  | cons item rest ih =>
    intro cur curY
    simp only [clusterAux]
    split
    · rw [ih]; simp
    · simp [ih]

theorem clusterLines_flatten (y : α → ℚ) (θ : ℚ) (l : List α) :
    (clusterLines y θ l).flatten = l := by
  cases l with
  | nil => rfl
  | cons item rest => simp [clusterLines, clusterAux_flatten]

theorem clusterAux_ne_nil (y : α → ℚ) (θ : ℚ) (l : List α) :
    ∀ cur curY, cur ≠ [] → ∀ line ∈ clusterAux y θ cur curY l, line ≠ [] := by
  induction l with
  | nil =>
    intro cur curY hcur line hline
    simp [clusterAux] at hline
    simpa [hline] using hcur
  | cons item rest ih =>
    intro cur curY hcur line hline
    simp only [clusterAux] at hline
    split at hline
    · exact ih _ _ (by simp) line hline
    · rcases List.mem_cons.mp hline with h | h
      · simpa [h] using hcur
      · exact ih _ _ (by simp) line h

theorem clusterLines_ne_nil (y : α → ℚ) (θ : ℚ) (l : List α) :
    ∀ line ∈ clusterLines y θ l, line ≠ [] := by
  cases l with
  | nil => simp [clusterLines]
  | cons item rest => exact clusterAux_ne_nil y θ rest [item] (y item) (by simp)

theorem mem_of_mem_clusterLines (y : α → ℚ) (θ : ℚ) (l : List α)
    (line : List α) (hline : line ∈ clusterLines y θ l) (t : α) (ht : t ∈ line) :
    t ∈ l := by
  have : t ∈ (clusterLines y θ l).flatten := List.mem_flatten.mpr ⟨line, hline, ht⟩
  rwa [clusterLines_flatten] at this

theorem length_le_length_flatten (L : List (List α))
    (h : ∀ line ∈ L, line ≠ []) : L.length ≤ L.flatten.length := by
  induction L with
  | nil => simp
  | cons a L ih =>
    have ha : a ≠ [] := h a (by simp)
    have : 1 ≤ a.length := List.length_pos.mpr ha
    simp only [List.length_cons, List.flatten_cons, List.length_append]
    have := ih (fun line hl => h line (List.mem_cons_of_mem a hl))
    omega

theorem clusterAux_map (f : β → α) (y : α → ℚ) (yb : β → ℚ)
    (hy : ∀ b, y (f b) = yb b) (θ : ℚ) (l : List β) :
    ∀ cur curY, clusterAux y θ (cur.map f) curY (l.map f) =
      (clusterAux yb θ cur curY l).map (List.map f) := by
  induction l with
  | nil => intro cur curY; simp [clusterAux]
  | cons item rest ih =>
    intro cur curY
    simp only [List.map_cons, clusterAux, hy, List.length_map]
    split
    · exact ih (item :: cur) _
    · rw [show (f item :: ([] : List α)) = List.map f [item] from rfl, ih]
      simp

theorem clusterLines_map (f : β → α) (y : α → ℚ) (yb : β → ℚ)
    (hy : ∀ b, y (f b) = yb b) (θ : ℚ) (l : List β) :
    clusterLines y θ (l.map f) = (clusterLines yb θ l).map (List.map f) := by
  cases l with
  | nil => rfl
  | cons item rest =>
    simp only [List.map_cons, clusterLines, hy]
    rw [show (f item :: ([] : List α)) = List.map f [item] from rfl,
      clusterAux_map f y yb hy]

theorem tokenLE_toToken (a b : LToken) :
    tokenLE (toToken a) (toToken b) = ltokenLE a b := rfl

/-- C8: for every page, on the same tokens (same text and coordinates),
the number of non-empty lines produced by the text extractor equals the
number of regions produced by the layout analyzer: the two modules share
the comparator, the threshold and the clustering loop, and drop exactly
the lines whose trimmed joined text is empty. -/
theorem c8_line_counts_agree (w h : ℚ) (tokens : List LToken) :
    (extractLines h (tokens.map toToken)).length = (layoutRegions w h tokens).length := by
  unfold extractLines layoutRegions
  dsimp only
  rw [← List.map_mergeSort (fun a _ b _ => (tokenLE_toToken a b).symm),
    clusterLines_map toToken Token.y LToken.y (fun b => rfl)]
  rw [List.map_map, List.length_map]
  rw [show ((fun line => jsTrim (List.map Token.text line).flatten) ∘ List.map toToken) =
      (fun line => jsTrim (List.map LToken.text line).flatten) from ?_]
  · rw [List.filter_map, List.length_map]
    rfl
  · funext line
    simp [Function.comp, List.map_map]
    rfl

theorem dropWhile_eq_self_of_head (p : α → Bool) (s : List α)
    (h : s.head?.all (fun c => !p c) = true) : s.dropWhile p = s := by
  cases s with
  | nil => rfl
  | cons c t =>
    simp only [List.head?_cons, Option.all_some, Bool.not_eq_eq_eq_not,
      Bool.not_true] at h
    exact List.dropWhile_cons_of_neg (by simp [h])

theorem jsTrim_eq_self (s : List Char)
    (h1 : s.head?.all (fun c => !c.isWhitespace) = true)
    (h2 : s.getLast?.all (fun c => !c.isWhitespace) = true) : jsTrim s = s := by
  unfold jsTrim
  rw [dropWhile_eq_self_of_head _ _ h1,
    dropWhile_eq_self_of_head _ _ (by rwa [List.head?_reverse]),
    List.reverse_reverse]

theorem head_all_flatten (p : Char → Bool) (L : List (List Char))
    (hne : ∀ s ∈ L, s ≠ []) (hp : ∀ s ∈ L, s.head?.all p = true) :
    L.flatten.head?.all p = true := by
  cases L with
  | nil => rfl
  | cons s L =>
    cases s with
    | nil => exact absurd rfl (hne [] (by simp))
    | cons c t => simpa using hp (c :: t) (by simp)

theorem getLast_all_flatten (p : Char → Bool) (L : List (List Char))
    (hne : ∀ s ∈ L, s ≠ []) (hp : ∀ s ∈ L, s.getLast?.all p = true) :
    L.flatten.getLast?.all p = true := by
  rw [List.getLast?_eq_head?_reverse, List.reverse_flatten]
  refine head_all_flatten p _ ?_ ?_
  · intro s hs
    rw [List.mem_reverse, List.mem_map] at hs
    obtain ⟨u, hu, rfl⟩ := hs
    simpa using hne u hu
  · intro s hs
    rw [List.mem_reverse, List.mem_map] at hs
    obtain ⟨u, hu, rfl⟩ := hs
    rw [List.head?_reverse]
    exact hp u hu

theorem flatten_map_flatten (f : α → List β) (L : List (List α)) :
    (L.map (fun l => (l.map f).flatten)).flatten = ((L.flatten).map f).flatten := by
  induction L with
  | nil => rfl
  | cons a L ih => simp [ih]

/-- C9 (amended): for every page the number of produced lines is at most
the number of input tokens, unconditionally; and — provided every token
text is nonempty with no leading or trailing whitespace, so that per-line
trimming is the identity and no line is blank — the concatenation of the
line texts equals the concatenation of the token texts in reading order. -/
theorem c9_line_count_and_content (h : ℚ) (tokens : List Token) :
    (extractLines h tokens).length ≤ tokens.length ∧
    ((∀ t ∈ tokens, goodText t.text) →
      (extractLines h tokens).flatten =
        ((tokens.mergeSort tokenLE).map Token.text).flatten) := by
  have hlinesne := clusterLines_ne_nil Token.y (h * (12 / 1000))
    (tokens.mergeSort tokenLE)
  constructor
  · unfold extractLines
    dsimp only
    refine le_trans (List.length_filter_le _ _) ?_
    rw [List.length_map]
    calc (clusterLines Token.y (h * (12 / 1000)) (tokens.mergeSort tokenLE)).length
        ≤ (clusterLines Token.y (h * (12 / 1000))
            (tokens.mergeSort tokenLE)).flatten.length :=
          length_le_length_flatten _ hlinesne
      _ = tokens.length := by rw [clusterLines_flatten, List.length_mergeSort]
  intro hgood
  have hsortedgood : ∀ t ∈ tokens.mergeSort tokenLE, goodText t.text :=
    fun t ht => hgood t (List.mem_mergeSort.mp ht)
  have hmem : ∀ line ∈ clusterLines Token.y (h * (12 / 1000))
      (tokens.mergeSort tokenLE), ∀ t ∈ line, goodText t.text :=
    fun line hline t ht =>
      hsortedgood t (mem_of_mem_clusterLines _ _ _ line hline t ht)
  have htxtgood : ∀ line ∈ clusterLines Token.y (h * (12 / 1000))
      (tokens.mergeSort tokenLE),
      jsTrim (line.map Token.text).flatten = (line.map Token.text).flatten := by
    intro line hline
    refine jsTrim_eq_self _ ?_ ?_
    · refine head_all_flatten _ _ ?_ ?_ <;> intro s hs <;>
        rw [List.mem_map] at hs <;> obtain ⟨u, hu, rfl⟩ := hs
      · exact (hmem line hline u hu).1
      · exact (hmem line hline u hu).2.1
    · refine getLast_all_flatten _ _ ?_ ?_ <;> intro s hs <;>
        rw [List.mem_map] at hs <;> obtain ⟨u, hu, rfl⟩ := hs
      · exact (hmem line hline u hu).1
      · exact (hmem line hline u hu).2.2
  have hflatne : ∀ line ∈ clusterLines Token.y (h * (12 / 1000))
      (tokens.mergeSort tokenLE), (line.map Token.text).flatten ≠ [] := by
    intro line hline
    obtain ⟨t, ts, rfl⟩ := List.exists_cons_of_ne_nil (hlinesne line hline)
    have := (hmem _ hline t (by simp)).1
    simp only [List.map_cons, List.flatten_cons, Ne, List.append_eq_nil]
    intro hcontra
    exact this hcontra.1
  have hext : extractLines h tokens =
      (clusterLines Token.y (h * (12 / 1000)) (tokens.mergeSort tokenLE)).map
        (fun line => (line.map Token.text).flatten) := by
    unfold extractLines
    dsimp only
    rw [List.map_congr_left htxtgood]
    refine List.filter_eq_self.mpr ?_
    intro a ha
    rw [List.mem_map] at ha
    obtain ⟨line, hline, rfl⟩ := ha
    simpa using hflatne line hline
  rw [hext, flatten_map_flatten, clusterLines_flatten]

/-- C9 counterexample: a single token with text "a " produces the single
line "a", so the concatenated line text drops the trailing space of the
token content. -/
theorem c9_line_count_and_content_counterexample :
    extractLines 100 [tokTrail] = [['a']] ∧
    (([tokTrail].mergeSort tokenLE).map Token.text).flatten = ['a', ' '] ∧
    (extractLines 100 [tokTrail]).flatten ≠
      (([tokTrail].mergeSort tokenLE).map Token.text).flatten := by
  have hms : ([tokTrail].mergeSort tokenLE) = [tokTrail] := List.mergeSort_singleton _
  refine ⟨?_, ?_, ?_⟩ <;>
    norm_num [extractLines, hms, clusterLines, clusterAux, jsTrim, tokTrail] <;>
    decide

/-- Witness for C9 at a single well-behaved token: the unconditional bound
and, with the whitespace proviso discharged, the content equation. -/
theorem c9_line_count_and_content_witness :
    (extractLines 100 [({ text := ['a'], x := 0, y := 0 } : Token)]).length ≤
      ([({ text := ['a'], x := 0, y := 0 } : Token)] : List Token).length ∧
    (extractLines 100 [({ text := ['a'], x := 0, y := 0 } : Token)]).flatten =
      ((([({ text := ['a'], x := 0, y := 0 } : Token)] : List Token).mergeSort
        tokenLE).map Token.text).flatten :=
  ⟨(c9_line_count_and_content 100 _).1,
    (c9_line_count_and_content 100 _).2 (by decide)⟩

theorem foldl_min_le_init (f : LToken → ℚ) (l : List LToken) (a : ℚ) :
    l.foldl (fun m it => min m (f it)) a ≤ a := by
  induction l generalizing a with
  | nil => exact le_refl a
  | cons t ts ih => exact le_trans (ih (min a (f t))) (min_le_left _ _)

theorem le_foldl_min (f : LToken → ℚ) (l : List LToken) (a c : ℚ)
    (ha : c ≤ a) (hl : ∀ x ∈ l, c ≤ f x) :
    c ≤ l.foldl (fun m it => min m (f it)) a := by
  induction l generalizing a with
  | nil => exact ha
  | cons t ts ih =>
    exact ih _ (le_min ha (hl t (by simp))) (fun x hx => hl x (by simp [hx]))

theorem init_le_foldl_max (f : LToken → ℚ) (l : List LToken) (a : ℚ) :
    a ≤ l.foldl (fun m it => max m (f it)) a := by
  induction l generalizing a with
  | nil => exact le_refl a
  | cons t ts ih => exact le_trans (le_max_left _ _) (ih (max a (f t)))

theorem foldl_max_le (f : LToken → ℚ) (l : List LToken) (a c : ℚ)
    (ha : a ≤ c) (hl : ∀ x ∈ l, f x ≤ c) :
    l.foldl (fun m it => max m (f it)) a ≤ c := by
  induction l generalizing a with
  | nil => exact ha
  | cons t ts ih =>
    exact ih _ (max_le ha (hl t (by simp))) (fun x hx => hl x (by simp [hx]))

/-- C5 (amended): every region emitted for a line all of whose tokens lie
inside the page has a bounding box with 0 <= x0 <= x1 <= 1 and
0 <= y0 <= y1 <= 1.  (The code clamps only the y coordinates, and only
after padding; x is normalized but never clamped, so tokens outside the
page horizontally produce x0 < 0 or x1 > 1.) -/
theorem c5_region_bbox_bounds (w h : ℚ) (hw : 0 < w) (hh : 0 < h)
    (tokens : List LToken) (htok : ∀ t ∈ tokens, tokenInPage w h t) :
    ∀ b ∈ layoutRegions w h tokens,
      0 ≤ b.x0 ∧ b.x0 ≤ b.x1 ∧ b.x1 ≤ 1 ∧ 0 ≤ b.y0 ∧ b.y0 ≤ b.y1 ∧ b.y1 ≤ 1 := by
  intro b hb
  unfold layoutRegions at hb
  dsimp only at hb
  rw [List.mem_map] at hb
  obtain ⟨line, hlineF, rfl⟩ := hb
  rw [List.mem_filter] at hlineF
  obtain ⟨hline, hfilter⟩ := hlineF
  have hmem : ∀ t ∈ line, tokenInPage w h t := fun t ht =>
    htok t (List.mem_mergeSort.mp (mem_of_mem_clusterLines _ _ _ line hline t ht))
  have hne : line ≠ [] := by
    intro h0
    rw [h0] at hfilter
    simp [jsTrim] at hfilter
  obtain ⟨t, ts, rfl⟩ := List.exists_cons_of_ne_nil hne
  have hpad : 0 ≤ h * (4 / 1000) := by positivity
  have ht0 := hmem t (by simp)
  obtain ⟨htx, htxw, hty, htyh, htw, hth⟩ := ht0
  unfold lineBBox lineMin lineMax
  dsimp only
  have hminx0 : (0 : ℚ) ≤ ts.foldl (fun m it => min m it.x) t.x :=
    le_foldl_min _ ts t.x 0 htx (fun x hx => (hmem x (by simp [hx])).1)
  have hminx_le : ts.foldl (fun m it => min m it.x) t.x ≤ t.x :=
    foldl_min_le_init _ ts t.x
  have hmaxx_ge : t.x + t.width ≤ ts.foldl (fun m it => max m (it.x + it.width)) (t.x + t.width) :=
    init_le_foldl_max _ ts _
  have hmaxx_le : ts.foldl (fun m it => max m (it.x + it.width)) (t.x + t.width) ≤ w :=
    foldl_max_le _ ts _ w htxw (fun x hx => (hmem x (by simp [hx])).2.1)
  have hminy0 : (0 : ℚ) ≤ ts.foldl (fun m it => min m it.y) t.y :=
    le_foldl_min _ ts t.y 0 hty (fun x hx => (hmem x (by simp [hx])).2.2.1)
  have hminy_le : ts.foldl (fun m it => min m it.y) t.y ≤ t.y :=
    foldl_min_le_init _ ts t.y
  have hmaxy_ge : t.y + t.height ≤ ts.foldl (fun m it => max m (it.y + it.height)) (t.y + t.height) :=
    init_le_foldl_max _ ts _
  have hmaxy_le : ts.foldl (fun m it => max m (it.y + it.height)) (t.y + t.height) ≤ h :=
    foldl_max_le _ ts _ h htyh (fun x hx => (hmem x (by simp [hx])).2.2.2.1)
  refine ⟨?_, ?_, ?_, ?_, ?_, ?_⟩
  · exact div_nonneg hminx0 (le_of_lt hw)
  · exact (div_le_div_iff_of_pos_right hw).mpr (by linarith)
  · exact (div_le_one hw).mpr hmaxx_le
  · exact le_max_left 0 _
  · refine max_le (le_min (by norm_num) ?_) (le_min ?_ ?_)
    · exact div_nonneg (by linarith) (le_of_lt hh)
    · exact (div_le_one hh).mpr (by linarith)
    · exact (div_le_div_iff_of_pos_right hh).mpr (by linarith)
  · exact min_le_left 1 _

/-- C5 counterexample: a token at x = -10 on a 100 x 100 page produces a
region with x0 = -1/10: x is normalized but never clamped to [0,1]. -/
theorem c5_region_bbox_bounds_counterexample :
    (layoutRegions 100 100 [tokOut]).map BBox.x0 = [-(1/10)] ∧
    ¬ (0 ≤ (-(1/10) : ℚ)) := by
  have hms : ([tokOut].mergeSort ltokenLE) = [tokOut] := List.mergeSort_singleton _
  constructor
  · have hcond : (!(jsTrim ['a']).isEmpty) = true := by decide
    norm_num [layoutRegions, hms, clusterLines, clusterAux, List.filter_cons,
      lineBBox, lineMin, lineMax, tokOut, hcond]
  · norm_num

/-- Witness for C5 at a page with a single in-bounds token. -/
theorem c5_region_bbox_bounds_witness :
    (0 : ℚ) < 100 ∧ (∀ t ∈ [tokIn], tokenInPage 100 100 t) ∧
    ∀ b ∈ layoutRegions 100 100 [tokIn],
      0 ≤ b.x0 ∧ b.x0 ≤ b.x1 ∧ b.x1 ≤ 1 ∧ 0 ≤ b.y0 ∧ b.y0 ≤ b.y1 ∧ b.y1 ≤ 1 := by
  have hin : ∀ t ∈ [tokIn], tokenInPage 100 100 t := by
    intro t ht
    rw [List.mem_singleton] at ht
    subst ht
    unfold tokenInPage tokIn
    norm_num
  exact ⟨by norm_num, hin,
    c5_region_bbox_bounds 100 100 (by norm_num) (by norm_num) [tokIn] hin⟩


end VisualRag
